import Mathlib

/-!
Verification of the time-evaluation and composition core of `iceberg`
(`src/iceberg/animation/scene.py`): the keyframe sequence evaluator
(`Animated`), the time-freezing wrapper (`Frozen`), the scene algebra
(`Scene.__add__`, `Scene.freeze`, `Scene.reverse`, `Scene.render`) and the
linear-timeline builder (`Playbook`).

Times and durations are embedded as exact rationals `ℚ`; states, ease
functions, bounds, canvases and pixel buffers are abstract type parameters,
since interpolation (`tween`), bounds computation, cropping and rasterization
are external collaborators of this core.
-/

namespace Iceberg

/-- Result of evaluating the keyframe sequence evaluator at a time: either one
of the stored states returned unmodified, or a symbolic call
`tween(a, b, progress, ease_fn)` to the external interpolation function. -/
inductive EvalResult (α ε : Type) where
  | state (a : α)
  | tweenOf (a b : α) (progress : ℚ) (ease : ε)
  deriving DecidableEq, Repr

/-- The fields stored by `Animated.__init__` after broadcasting and
validation (`states`, `durations`, `ease_fns`, `start_time`, and the derived
`_total_duration = sum(durations) + start_time`). -/
structure AnimatedData (α ε : Type) where
  states : List α
  durations : List ℚ
  ease_fns : List ε
  start_time : ℚ
  total_duration : ℚ
  deriving Repr

/-- The `durations` argument of `Animated.__init__`: either a single scalar
(broadcast to every segment) or an explicit per-segment sequence. -/
inductive DurationsInput where
  | scalar (d : ℚ)
  | seq (ds : List ℚ)

/-- The `ease_fns` argument of `Animated.__init__` after the `ease_types`
defaulting: either a single ease (broadcast) or a per-segment sequence. -/
inductive EaseInput (ε : Type) where
  | scalar (e : ε)
  | seq (es : List ε)

/-- `if isinstance(durations, float) or isinstance(durations, int):
durations = [durations] * (len(states) - 1)`. -/
def broadcastDurations (numStates : ℕ) : DurationsInput → List ℚ
  | .scalar d => List.replicate (numStates - 1) d
  | .seq ds => ds

/-- `if not isinstance(ease_fns, Sequence):
ease_fns = [ease_fns] * (len(states) - 1)`. -/
def broadcastEase {ε : Type} (numStates : ℕ) : EaseInput ε → List ε
  | .scalar e => List.replicate (numStates - 1) e
  | .seq es => es

/-- `Animated.__init__`: broadcast scalar inputs, then run the three asserts
in source order; on success store the fields and the derived total duration. -/
def animatedInit {α ε : Type} (states : List α) (durations : DurationsInput)
    (ease_fns : EaseInput ε) (start_time : ℚ) :
    Except String (AnimatedData α ε) :=
  let ds := broadcastDurations states.length durations
  let es := broadcastEase states.length ease_fns
  if states.length < 2 then
    .error "Must have at least two states to animate between."
  else if states.length ≠ ds.length + 1 then
    .error "Every pair of states must have a duration."
  else if states.length ≠ es.length + 1 then
    .error "Every pair of states must have an ease."
  else
    .ok { states := states, durations := ds, ease_fns := es,
          start_time := start_time, total_duration := ds.sum + start_time }

/-- The invariants guaranteed by a successful `Animated.__init__`. -/
def AnimatedData.Valid {α ε : Type} (a : AnimatedData α ε) : Prop :=
  2 ≤ a.states.length ∧
    a.states.length = a.durations.length + 1 ∧
    a.states.length = a.ease_fns.length + 1 ∧
    a.total_duration = a.durations.sum + a.start_time

instance {α ε : Type} (a : AnimatedData α ε) : Decidable a.Valid := by
  unfold AnimatedData.Valid; infer_instance

/-- The segment-scan loop of `Animated._get_drawable_at_t`:
`for i, duration in enumerate(self._durations): if time_so_far + duration > t:
break; time_so_far += duration`.  The first argument of the scan is the
current `duration`, then the remaining durations, the accumulator
`time_so_far` and the current index `i`; the result is the triple
`(i, duration, time_so_far)` left in scope when the loop breaks or ends. -/
def segLoop (t : ℚ) : ℚ → List ℚ → ℚ → ℕ → ℕ × ℚ × ℚ
  | d, [], acc, i => if t < acc + d then (i, d, acc) else (i, d, acc + d)
  | d, d2 :: rest, acc, i =>
    if t < acc + d then (i, d, acc) else segLoop t d2 rest (acc + d) (i + 1)

/-- `Animated._get_drawable_at_t`: subtract the start time, clamp before 0 to
`states[0]` and at or after `total_duration - start_time` to `states[-1]`,
otherwise scan the segments and return the `tween` of the two surrounding
states.  `none` models the Python runtime errors (`states[-1]` on an empty
list, the loop variables being unbound when `durations` is empty, an index
out of range) that a validly constructed instance never hits. -/
def AnimatedData.getDrawableAtT {α ε : Type} (a : AnimatedData α ε) (t : ℚ) :
    Option (EvalResult α ε) :=
  let t' := t - a.start_time
  if t' < 0 then
    a.states.head?.map .state
  else if a.total_duration - a.start_time ≤ t' then
    a.states.getLast?.map .state
  else
    match a.durations with
    | [] => none
    | d :: rest =>
      let r := segLoop t' d rest 0 0
      match a.states[r.1]?, a.states[r.1 + 1]?, a.ease_fns[r.1]? with
      | some si, some si1, some e =>
        some (.tweenOf si si1 ((t' - r.2.2) / r.2.1) e)
      | _, _, _ => none

/-- `Animated.total_duration` property. -/
def AnimatedData.totalDuration {α ε : Type} (a : AnimatedData α ε) : ℚ :=
  a.total_duration

/-! ## Scene: `class Scene` and its algebra -/

/-- `Scene.__init__`: a duration in seconds and a frame function.  Frames are
abstract (`α`): the core never inspects the returned visual object. -/
structure Scene (α : Type) where
  duration : ℚ
  make_frame : ℚ → α

/-- `Scene.__add__`: concatenation.  New duration is the sum; the frame
function plays the first scene before `self.duration` and the second,
re-based, from there on. -/
def Scene.add {α : Type} (a b : Scene α) : Scene α :=
  { duration := a.duration + b.duration,
    make_frame := fun t =>
      if t < a.duration then a.make_frame t else b.make_frame (t - a.duration) }

instance {α : Type} : Add (Scene α) := ⟨Scene.add⟩

/-- `Scene.freeze`: a new scene of the given duration whose frame function
ignores its argument and evaluates the wrapped scene at its own duration. -/
def Scene.freeze {α : Type} (s : Scene α) (duration : ℚ) : Scene α :=
  { duration := duration, make_frame := fun _ => s.make_frame s.duration }

/-- `Scene.reverse`: same duration, frame function `t ↦ make_frame(duration - t)`. -/
def Scene.reverse {α : Type} (s : Scene α) : Scene α :=
  { duration := s.duration, make_frame := fun t => s.make_frame (s.duration - t) }

/-- Python `int()` applied to a rational: truncation toward zero. -/
def pyInt (q : ℚ) : ℤ :=
  if q < 0 then -((-q).floor) else q.floor

/-- The frame loop of `Scene.render`: `n` frames remain, `k` is the current
frame index, `cache` is the `bounds` local (`None` until the first frame).
Each iteration evaluates `make_frame(k / fps)`, fills the bounds cache from
the first frame, crops to the cached bounds and appends the result. -/
def renderLoop {α β γ : Type} (s : Scene α) (bounds : α → β) (crop : α → β → γ)
    (fps : ℕ) : ℕ → ℕ → Option β → List γ
  | 0, _, _ => []
  | n + 1, k, cache =>
    let frame := s.make_frame ((k : ℚ) / (fps : ℚ))
    let b := cache.getD (bounds frame)
    crop frame b :: renderLoop s bounds crop fps n (k + 1) (some b)

/-- `Scene.render`: `total_frames = int(fps * self.duration)` frames, written
to the sink in index order; the returned list is the ordered sequence of
cropped frames handed to the external renderer and appended to the writer. -/
def Scene.render {α β γ : Type} (s : Scene α) (bounds : α → β)
    (crop : α → β → γ) (fps : ℕ) : List γ :=
  renderLoop s bounds crop fps (pyInt ((fps : ℚ) * s.duration)).toNat 0 none

/-! ## Frozen: the time freezer, and `_get_drawable_duration` -/

/-- Modelled from the spec: the visual-object tree underlying `find_all`.
`Drawable.find_all` lives in `iceberg.core.drawable`, outside this core; the
spec fixes its interface as "search descendants by predicate → ordered
sequence".  A node carries `some totalDuration` when it is an `Animated`
instance (the predicate `isinstance(d, Animated)` holds) and `none`
otherwise, plus its ordered children. -/
inductive DTree where
  | node (animatedDuration : Option ℚ) (children : List DTree)

/-- All nodes of a subtree, root first, in order. -/
def DTree.allNodes : DTree → List DTree
  | .node a cs => .node a cs :: (cs.attach.map fun c => DTree.allNodes c.1).flatten
decreasing_by
  have := List.sizeOf_lt_of_mem c.2
  simp only [DTree.node.sizeOf_spec]
  omega

/-- Modelled from the spec: `drawable.find_all(lambda d: isinstance(d,
Animated))` followed by reading each result's `total_duration`. -/
def findAllAnimatedDurations (d : DTree) : List ℚ :=
  d.allNodes.filterMap fun n => match n with | .node a _ => a

/-- `_get_drawable_duration`: start from 0 and take the running maximum of
the total durations of every `Animated` found in the subtree. -/
def getDrawableDuration (d : DTree) : ℚ :=
  (findAllAnimatedDurations d).foldl max 0

/-- An external visual object as seen by `Frozen`: a mutable time cursor
(`set_time`), a subtree (for `find_all`), and bounds/children/draw whose
results depend on the current time. -/
structure ChildObj (β γ δ : Type) where
  time : ℚ
  tree : DTree
  boundsAt : ℚ → β
  childrenAt : ℚ → γ
  drawAt : ℚ → δ → δ

/-- `Drawable.set_time` (external, mutating): replace the time cursor. -/
def ChildObj.setTime {β γ δ : Type} (c : ChildObj β γ δ) (t : ℚ) :
    ChildObj β γ δ :=
  { c with time := t }

/-- The child's `bounds` property at its current time. -/
def ChildObj.bounds {β γ δ : Type} (c : ChildObj β γ δ) : β :=
  c.boundsAt c.time

/-- The child's `children` property at its current time. -/
def ChildObj.childrenNow {β γ δ : Type} (c : ChildObj β γ δ) : γ :=
  c.childrenAt c.time

/-- The child's `draw(canvas)` at its current time. -/
def ChildObj.draw {β γ δ : Type} (c : ChildObj β γ δ) (canvas : δ) : δ :=
  c.drawAt c.time canvas

/-- The state stored by `Frozen.__init__`: the fixed freeze time `_t`. -/
structure FrozenData where
  t : ℚ

/-- `Frozen.__init__`: when `t` is `None`, default it to
`_get_drawable_duration(child)`. -/
def frozenInit {β γ δ : Type} (child : ChildObj β γ δ) (t : Option ℚ) :
    FrozenData :=
  { t := t.getD (getDrawableDuration child.tree) }

/-- `Frozen._time_freeze`: `self._child.set_time(self._t)`. -/
def frozenTimeFreeze {β γ δ : Type} (f : FrozenData) (c : ChildObj β γ δ) :
    ChildObj β γ δ :=
  c.setTime f.t

/-- `Frozen.bounds`: freeze the child's time, then delegate.  The pair is the
mutated child and the delegated result. -/
def frozenBounds {β γ δ : Type} (f : FrozenData) (c : ChildObj β γ δ) :
    ChildObj β γ δ × β :=
  let c' := frozenTimeFreeze f c
  (c', c'.bounds)

/-- `Frozen.children`: freeze the child's time, then delegate. -/
def frozenChildren {β γ δ : Type} (f : FrozenData) (c : ChildObj β γ δ) :
    ChildObj β γ δ × γ :=
  let c' := frozenTimeFreeze f c
  (c', c'.childrenNow)

/-- `Frozen.draw`: freeze the child's time, then delegate. -/
def frozenDraw {β γ δ : Type} (f : FrozenData) (c : ChildObj β γ δ)
    (canvas : δ) : ChildObj β γ δ × δ :=
  let c' := frozenTimeFreeze f c
  (c', c'.draw canvas)

/-! ## Playbook -/

/-- `Playbook.freeze(duration)`: error when no scene has been added,
otherwise append `last_scene.freeze(duration)`. -/
def playbookFreeze {α : Type} (scenes : List (Scene α)) (duration : ℚ) :
    Except String (List (Scene α)) :=
  match scenes.getLast? with
  | none => .error "No scenes have been added to the playbook. So cannot freeze."
  | some last => .ok (scenes ++ [last.freeze duration])

/-- `Playbook.combined_scene`: assert the scene list nonempty, then left-fold
the list with `Scene.__add__`. -/
def combinedScene {α : Type} (scenes : List (Scene α)) :
    Except String (Scene α) :=
  match scenes with
  | [] => .error "No scenes have been added to the playbook."
  | s :: rest => .ok (rest.foldl (· + ·) s)

/-- The attribute names defined on `Playbook` instances: the two instance
attributes set in `__init__` and the methods of the class body.  Neither
`_get_drawable_duration` (a module-level function taking a drawable) nor
`_get_drawable_at_t` (a method of `Animated`) is among them. -/
def playbookAttrs : List String :=
  ["_cursor", "_scenes", "combined_scene", "frozen", "freeze", "add_scene",
   "play", "timeline"]

/-- Python attribute lookup on a `Playbook` instance: `AttributeError` when
the name is not defined on the instance or its class. -/
def playbookGetAttr (name : String) : Except String Unit :=
  if name ∈ playbookAttrs then .ok ()
  else .error ("AttributeError: Playbook object has no attribute " ++ name)

/-- `Playbook.frozen(drawable, t=None)`: when `t` is `None` look up
`self._get_drawable_duration` to compute it, then look up
`self._get_drawable_at_t` and call it.  Both lookups are modelled; the body
after a failed lookup is unreachable. -/
def playbookFrozen (t : Option ℚ) : Except String Unit := do
  let _t ← match t with
    | none => do
      let _ ← playbookGetAttr "_get_drawable_duration"
      pure (0 : ℚ)
    | some t => pure t
  let _ ← playbookGetAttr "_get_drawable_at_t"
  pure ()

/-! ## Theorems -/

/-- Unfolding lemma for the `Add (Scene α)` instance. -/
theorem scene_add_def {α : Type} (a b : Scene α) : a + b = a.add b := rfl

/-- C2: concatenation of two scenes has duration `a.duration + b.duration`,
plays `a.frame(t)` for `t < a.duration` and `b.frame(t - a.duration)` for
`t ≥ a.duration`; concretely `concat(Scene(2,f1), Scene(3,f2))` has duration
5, `frame(1) = f1(1)` and — amended — `frame(4) = f2(2)` (the claim's
`f2(1)` is off by one: the second scene is re-based by `a.duration = 2`). -/
theorem scene_add_spec {α : Type} (a b : Scene α) :
    (a + b).duration = a.duration + b.duration ∧
    (∀ t : ℚ, t < a.duration → (a + b).make_frame t = a.make_frame t) ∧
    (∀ t : ℚ, a.duration ≤ t →
      (a + b).make_frame t = b.make_frame (t - a.duration)) ∧
    (∀ f1 f2 : ℚ → α,
      (Scene.mk 2 f1 + Scene.mk 3 f2).duration = 5 ∧
      (Scene.mk 2 f1 + Scene.mk 3 f2).make_frame 1 = f1 1 ∧
      (Scene.mk 2 f1 + Scene.mk 3 f2).make_frame 4 = f2 2) := by
  refine ⟨rfl, ?_, ?_, ?_⟩
  · intro t ht
    simp only [scene_add_def, Scene.add]
    rw [if_pos ht]
  · intro t ht
    simp only [scene_add_def, Scene.add]
    rw [if_neg (not_lt.mpr ht)]
  · intro f1 f2
    refine ⟨by norm_num [scene_add_def, Scene.add], ?_, ?_⟩
    · simp only [scene_add_def, Scene.add]
      norm_num
    · simp only [scene_add_def, Scene.add]
      norm_num

/-- C2 counterexample: as stated, the claim asserts
`concat(Scene(2,f1), Scene(3,f2)).frame(4) = f2(1)`; with `f1 = f2 = id`
the code computes `f2(4 - 2) = 2`, not `f2(1) = 1`. -/
theorem scene_add_concrete_cex :
    ¬ ((Scene.mk (2 : ℚ) (fun t => t) + Scene.mk 3 (fun t => t)).make_frame 4
        = (fun t : ℚ => t) 1) := by
  simp only [scene_add_def, Scene.add]
  norm_num

/-- C2 witness: the amended theorem applied at `f1 = id`, `f2 = id + 100`. -/
theorem scene_add_spec_witness :
    (Scene.mk (2 : ℚ) (fun t => t) + Scene.mk 3 (fun t => t + 100)).make_frame 4
      = 102 := by
  have h := scene_add_spec (Scene.mk (2 : ℚ) fun t => t)
    (Scene.mk 3 fun t => t + 100)
  have := (h.2.2.2 (fun t => t) (fun t => t + 100)).2.2
  norm_num at this ⊢
  exact this

/-- C3: scene concatenation is associative pointwise on frames, and both
groupings have duration `a.duration + b.duration + c.duration`; the scene
data model (durations ≥ 0) is assumed. -/
theorem scene_add_assoc_spec {α : Type} (a b c : Scene α)
    (ha : 0 ≤ a.duration) (hb : 0 ≤ b.duration) (hc : 0 ≤ c.duration) :
    (∀ t : ℚ, ((a + b) + c).make_frame t = (a + (b + c)).make_frame t) ∧
    ((a + b) + c).duration = a.duration + b.duration + c.duration ∧
    (a + (b + c)).duration = a.duration + b.duration + c.duration := by
  refine ⟨?_, ?_, ?_⟩
  · intro t
    simp only [scene_add_def, Scene.add]
    split_ifs
    all_goals try rfl
    all_goals try (exfalso; linarith)
    all_goals congr 1
    all_goals ring
  · simp only [scene_add_def, Scene.add]
  · simp only [scene_add_def, Scene.add]
    ring

/-- C3 witness: associativity applied to three concrete scenes at `t = 3`. -/
theorem scene_add_assoc_spec_witness :
    (((Scene.mk (1 : ℚ) (fun t => t) + Scene.mk 2 (fun t => t + 10)) +
        Scene.mk 4 (fun t => t + 20)).make_frame 3 =
      (Scene.mk (1 : ℚ) (fun t => t) + (Scene.mk 2 (fun t => t + 10) +
        Scene.mk 4 (fun t => t + 20))).make_frame 3) ∧
    ((Scene.mk (1 : ℚ) (fun t => t) + Scene.mk 2 (fun t => t + 10)) +
        Scene.mk 4 (fun t => t + 20)).duration = 7 := by
  have h := scene_add_assoc_spec (Scene.mk (1 : ℚ) fun t => t)
    (Scene.mk 2 fun t => t + 10) (Scene.mk 4 fun t => t + 20)
    (by norm_num) (by norm_num) (by norm_num)
  exact ⟨h.1 3, by rw [h.2.1]; norm_num⟩

/-- C4: `freeze(s, d)` is a scene of duration `d` whose frame function
ignores its argument and evaluates `s.frame(s.duration)` on every query;
in particular `freeze(Scene(2,f), 5).frame(t) = f(2)` for every `t`. -/
theorem scene_freeze_spec {α : Type} (s : Scene α) (d : ℚ) :
    (s.freeze d).duration = d ∧
    (∀ t : ℚ, (s.freeze d).make_frame t = s.make_frame s.duration) ∧
    (∀ f : ℚ → α, ∀ t : ℚ, ((Scene.mk 2 f).freeze 5).make_frame t = f 2) := by
  exact ⟨rfl, fun _ => rfl, fun _ _ => rfl⟩

/-- C5: `reverse(s)` has the same duration and frame function
`t ↦ s.frame(s.duration - t)`; at `t = 0` it evaluates
`s.frame(s.duration)`, at `t = s.duration` it evaluates `s.frame(0)`, and
`reverse(Scene(4,f)).frame(1) = f(3)`. -/
theorem scene_reverse_spec {α : Type} (s : Scene α) :
    s.reverse.duration = s.duration ∧
    (∀ t : ℚ, s.reverse.make_frame t = s.make_frame (s.duration - t)) ∧
    s.reverse.make_frame 0 = s.make_frame s.duration ∧
    s.reverse.make_frame s.duration = s.make_frame 0 ∧
    (∀ f : ℚ → α, (Scene.mk 4 f).reverse.make_frame 1 = f 3) := by
  refine ⟨rfl, fun _ => rfl, ?_, ?_, ?_⟩
  · show s.make_frame (s.duration - 0) = _
    rw [sub_zero]
  · show s.make_frame (s.duration - s.duration) = _
    rw [sub_self]
  · intro f
    show f (4 - 1) = f 3
    norm_num

/-- C7: configuration errors fail fast and only in the stated situations:
`Animated.__init__` succeeds exactly when, after broadcasting, there are at
least two states and both length-agreement invariants hold (so in
particular 3 states with 1 explicit duration fails); `Playbook.freeze` and
`Playbook.combined_scene` succeed exactly when the scene list is
nonempty. -/
theorem config_errors_spec :
    (∀ (α ε : Type) (states : List α) (d : DurationsInput) (e : EaseInput ε)
        (st : ℚ),
      (∃ a, animatedInit states d e st = .ok a) ↔
        (2 ≤ states.length ∧
          states.length = (broadcastDurations states.length d).length + 1 ∧
          states.length = (broadcastEase states.length e).length + 1)) ∧
    (animatedInit [0, 1, 2] (.seq [1]) (.scalar ()) 0 =
      .error "Every pair of states must have a duration.") ∧
    (∀ (α : Type) (scenes : List (Scene α)) (d : ℚ),
      (∃ r, playbookFreeze scenes d = .ok r) ↔ scenes ≠ []) ∧
    (∀ (α : Type) (scenes : List (Scene α)),
      (∃ r, combinedScene scenes = .ok r) ↔ scenes ≠ []) := by
  refine ⟨?_, by rfl, ?_, ?_⟩
  · intro α ε states d e st
    constructor
    · rintro ⟨a, ha⟩
      simp only [animatedInit] at ha
      split_ifs at ha with h1 h2 h3
      exact ⟨by omega, by omega, by omega⟩
    · rintro ⟨h1, h2, h3⟩
      simp only [animatedInit]
      rw [if_neg (by omega), if_neg (by omega), if_neg (by omega)]
      exact ⟨_, rfl⟩
  · intro α scenes d
    constructor
    · rintro ⟨r, hr⟩ hnil
      subst hnil
      simp [playbookFreeze] at hr
    · intro h
      obtain ⟨x, hx⟩ := Option.isSome_iff_exists.mp (List.getLast?_isSome.mpr h)
      exact ⟨scenes ++ [x.freeze d], by simp [playbookFreeze, hx]⟩
  · intro α scenes
    cases scenes with
    | nil => simp [combinedScene]
    | cons s rest => simp [combinedScene]

/-- C9: `Playbook.frozen` always raises: whether or not `t` is supplied, its
body looks up an attribute (`_get_drawable_duration` or
`_get_drawable_at_t`) that is not defined on `Playbook`, so the call errors
and never returns a frozen drawable. -/
theorem playbook_frozen_raises (t : Option ℚ) :
    ∃ msg, playbookFrozen t = .error msg := by
  cases t <;> exact ⟨_, rfl⟩

/-- Characterization of the segment scan: started at accumulator `acc ≤ t`
and index `i`, with `t` below `acc` plus the total of the remaining
durations, the loop breaks at the relative offset `j` of the first segment
whose right-exclusive interval contains `t`, leaving index `i + j`, that
segment's duration, and the elapsed time before it. -/
theorem segLoop_break (t : ℚ) (rest : List ℚ) :
    ∀ (d : ℚ) (acc : ℚ) (i : ℕ), acc ≤ t → t < acc + (d :: rest).sum →
    ∃ j : ℕ, j < (d :: rest).length ∧
      segLoop t d rest acc i =
        (i + j, (d :: rest).getD j 0, acc + ((d :: rest).take j).sum) ∧
      acc + ((d :: rest).take j).sum ≤ t ∧
      t < acc + ((d :: rest).take j).sum + (d :: rest).getD j 0 := by
  induction rest with
  | nil =>
    intro d acc i hacc hlt
    refine ⟨0, by simp, ?_, by simpa using hacc, ?_⟩
    · simp only [segLoop]
      rw [if_pos (by simpa using hlt)]
      simp
    · simpa using hlt
  | cons d2 rest ih =>
    intro d acc i hacc hlt
    by_cases hbr : t < acc + d
    · refine ⟨0, by simp, ?_, by simpa using hacc, by simpa using hbr⟩
      simp only [segLoop]
      rw [if_pos hbr]
      simp
    · have hle : acc + d ≤ t := not_lt.mp hbr
      have hlt' : t < (acc + d) + (d2 :: rest).sum := by
        simp only [List.sum_cons] at hlt ⊢
        linarith
      obtain ⟨j, hj, heq, hlo, hhi⟩ := ih d2 (acc + d) (i + 1) hle hlt'
      refine ⟨j + 1, by simpa using hj, ?_, ?_, ?_⟩
      · simp only [segLoop]
        rw [if_neg hbr, heq]
        refine congrArg₂ _ (by omega) (congrArg₂ _ ?_ ?_)
        · simp
        · simp only [List.take_succ_cons, List.sum_cons]
          ring
      · simp only [List.take_succ_cons, List.sum_cons]
        linarith
      · simp only [List.take_succ_cons, List.sum_cons, List.getD_cons_succ]
        linarith

/-- Interpretation of a symbolic evaluation result by an external
interpolation function `tw` (`tween`). -/
def EvalResult.interp {α ε : Type} (tw : α → α → ℚ → ε → α) :
    EvalResult α ε → α
  | .state a => a
  | .tweenOf a b p e => tw a b p e

/-- The evaluator of the worked example: states `[A, B, C]`, durations
`[1, 2]`, one ease for both segments, start time 0 (total duration 3). -/
def exampleAnimated {α ε : Type} (A B C : α) (e : ε) : AnimatedData α ε :=
  ⟨[A, B, C], [1, 2], [e, e], 0, 3⟩

/-- C1: evaluation of a validly constructed keyframe sequence evaluator with
`t' = t - start_time`: before 0, `states[0]` unmodified; at or after
`sum(durations)`, `states[-1]` unmodified; otherwise the first segment `i`
with `acc ≤ t' < acc + durations[i]` (`acc` the elapsed duration before `i`)
is selected and `tween(states[i], states[i+1], (t' - acc)/durations[i],
ease_fns[i])` is returned.  Durations are nonnegative per the data model. -/
theorem animated_eval_spec {α ε : Type} [Inhabited α] [Inhabited ε]
    (a : AnimatedData α ε) (hv : a.Valid)
    (hnn : ∀ d ∈ a.durations, 0 ≤ d) (t : ℚ) :
    (t - a.start_time < 0 →
      a.getDrawableAtT t = some (.state a.states.headI)) ∧
    (a.durations.sum ≤ t - a.start_time →
      a.getDrawableAtT t = some (.state a.states.getLastI)) ∧
    (0 ≤ t - a.start_time → t - a.start_time < a.durations.sum →
      ∃ i : ℕ, i < a.durations.length ∧
        (a.durations.take i).sum ≤ t - a.start_time ∧
        t - a.start_time < (a.durations.take i).sum + a.durations.getD i 0 ∧
        a.getDrawableAtT t =
          some (.tweenOf (a.states.getD i default)
            (a.states.getD (i + 1) default)
            ((t - a.start_time - (a.durations.take i).sum) /
              a.durations.getD i 0)
            (a.ease_fns.getD i default))) ∧
    (∀ (A B C : α) (e : ε) (tw : α → α → ℚ → ε → α),
      (∀ x y ee, tw x y 0 ee = x) →
      (exampleAnimated A B C e).getDrawableAtT (-1) = some (.state A) ∧
      ((exampleAnimated A B C e).getDrawableAtT 0).map (EvalResult.interp tw) =
        some A ∧
      (exampleAnimated A B C e).getDrawableAtT 3 = some (.state C) ∧
      (exampleAnimated A B C e).getDrawableAtT 10 = some (.state C) ∧
      (exampleAnimated A B C e).getDrawableAtT (1/2) =
        some (.tweenOf A B (1/2) e) ∧
      (exampleAnimated A B C e).getDrawableAtT 1 = some (.tweenOf B C 0 e) ∧
      (exampleAnimated A B C e).getDrawableAtT 2 =
        some (.tweenOf B C (1/2) e)) := by
  obtain ⟨h2, hlen_d, hlen_e, htot⟩ := hv
  have hne : a.states ≠ [] := by
    intro h
    rw [h] at h2
    simp at h2
  refine ⟨?_, ?_, ?_, ?_⟩
  · intro h
    simp only [AnimatedData.getDrawableAtT]
    rw [if_pos h]
    obtain ⟨s0, srest, hs⟩ : ∃ s0 srest, a.states = s0 :: srest := by
      cases hs : a.states with
      | nil => exact absurd hs hne
      | cons s0 srest => exact ⟨s0, srest, rfl⟩
    rw [hs]
    simp
  · intro h
    have hsum0 : 0 ≤ a.durations.sum := List.sum_nonneg hnn
    simp only [AnimatedData.getDrawableAtT]
    rw [if_neg (not_lt.mpr (by linarith)), if_pos (by rw [htot]; linarith),
      List.getLast?_eq_getLast_of_ne_nil hne]
    rw [List.getLastI_eq_getLast?, List.getLast?_eq_getLast_of_ne_nil hne]
    rfl
  · intro h0 hlt
    obtain ⟨d, rest, hds⟩ : ∃ d rest, a.durations = d :: rest := by
      cases hds : a.durations with
      | nil =>
        exfalso
        rw [hds] at hlen_d
        simp at hlen_d
        omega
      | cons d rest => exact ⟨d, rest, rfl⟩
    have hlt' : t - a.start_time < 0 + (d :: rest).sum := by
      rw [zero_add, ← hds]
      exact hlt
    obtain ⟨j, hjlt, heq, hlo, hhi⟩ :=
      segLoop_break (t - a.start_time) rest d 0 0 h0 hlt'
    have hjd : j < a.durations.length := by rw [hds]; exact hjlt
    have hjs : j < a.states.length := by omega
    have hjs1 : j + 1 < a.states.length := by omega
    have hje : j < a.ease_fns.length := by omega
    have hs1 : a.states[j]? = some (a.states.getD j default) := by
      rw [List.getElem?_eq_getElem hjs, List.getD_eq_getElem?_getD,
        List.getElem?_eq_getElem hjs]
      rfl
    have hs2 : a.states[j + 1]? = some (a.states.getD (j + 1) default) := by
      rw [List.getElem?_eq_getElem hjs1, List.getD_eq_getElem?_getD,
        List.getElem?_eq_getElem hjs1]
      rfl
    have he1 : a.ease_fns[j]? = some (a.ease_fns.getD j default) := by
      rw [List.getElem?_eq_getElem hje, List.getD_eq_getElem?_getD,
        List.getElem?_eq_getElem hje]
      rfl
    refine ⟨j, hjd, ?_, ?_, ?_⟩
    · rw [hds]
      simpa using hlo
    · rw [hds]
      simpa using hhi
    · have hcond2 : ¬ (a.total_duration - a.start_time ≤ t - a.start_time) := by
        rw [htot]
        intro hc
        have : a.durations.sum ≤ t - a.start_time := by linarith
        linarith
      simp only [AnimatedData.getDrawableAtT]
      rw [if_neg (not_lt.mpr h0), if_neg hcond2]
      simp only [hds, heq, zero_add, hs1, hs2, he1]
  · intro A B C e tw htw
    refine ⟨?_, ?_, ?_, ?_, ?_, ?_, ?_⟩ <;>
      simp only [exampleAnimated, AnimatedData.getDrawableAtT, segLoop,
        Option.map_some] <;>
      norm_num [htw] <;>
      simp [EvalResult.interp, htw]

/-- C1 witness: the evaluator spec applied to the concrete example with
states `[10, 20, 30]`, durations `[1, 2]`, start time 0, at `t = -1` and —
through the worked-example conjunct with `tw` returning its first argument
at progress 0 — at `t = 2`. -/
theorem animated_eval_spec_witness :
    ((exampleAnimated 10 20 30 () : AnimatedData ℕ Unit).getDrawableAtT (-1) =
      some (.state 10)) ∧
    ((exampleAnimated 10 20 30 () : AnimatedData ℕ Unit).getDrawableAtT 2 =
      some (.tweenOf 20 30 (1/2) ())) := by
  have h := animated_eval_spec (exampleAnimated 10 20 30 () :
      AnimatedData ℕ Unit)
    (by unfold AnimatedData.Valid exampleAnimated; norm_num)
    (by norm_num [exampleAnimated, List.forall_mem_cons]) (-1)
  have hc := h.2.2.2 10 20 30 () (fun x _ _ _ => x) (fun _ _ _ => rfl)
  exact ⟨by simpa [exampleAnimated] using h.1 (by norm_num [exampleAnimated]),
    hc.2.2.2.2.2.2⟩

/-- C10: with nonnegative per-segment durations that may include zeros,
whenever the interpolation branch is reached (`0 ≤ t < sum(durations)`) the
segment scan selects a segment of strictly positive duration, and the
elapsed time accumulated before it never exceeds `t`; hence the division
`(t - time_so_far) / duration` in `_get_drawable_at_t` is never by zero. -/
theorem segLoop_selects_positive (d : ℚ) (rest : List ℚ) (t : ℚ)
    (hnn : ∀ x ∈ d :: rest, 0 ≤ x) (h0 : 0 ≤ t)
    (hlt : t < (d :: rest).sum) :
    (segLoop t d rest 0 0).2.2 ≤ t ∧ 0 < (segLoop t d rest 0 0).2.1 := by
  obtain ⟨j, hj, heq, hlo, hhi⟩ :=
    segLoop_break t rest d 0 0 h0 (by simpa using hlt)
  rw [heq]
  refine ⟨by simpa using hlo, ?_⟩
  simp only
  have hlo' : ((d :: rest).take j).sum ≤ t := by simpa using hlo
  have hhi' : t < ((d :: rest).take j).sum + (d :: rest).getD j 0 := by
    simpa using hhi
  linarith

/-- C10 witness: durations `[0, 1]` (a zero-duration first segment) at
`t = 1/2`: the scan skips the zero segment and selects duration 1 > 0. -/
theorem segLoop_selects_positive_witness :
    (segLoop (1/2) 0 [1] 0 0).2.2 ≤ (1/2 : ℚ) ∧
      (0 : ℚ) < (segLoop (1/2) 0 [1] 0 0).2.1 :=
  segLoop_selects_positive 0 [1] (1/2) (by decide) (by norm_num)
    (by norm_num)

/-- `pyInt` agrees with the mathematical floor on nonnegative arguments. -/
theorem pyInt_of_nonneg (q : ℚ) (h : 0 ≤ q) : pyInt q = ⌊q⌋ := by
  unfold pyInt
  rw [if_neg (not_lt.mpr h)]
  rfl

/-- Once the bounds cache is filled with `b`, the frame at relative offset
`m` of the remaining `n` frames is the frame at `(k+m)/fps` cropped to `b`. -/
theorem renderLoop_cached_getElem {α β γ : Type} (s : Scene α) (bounds : α → β)
    (crop : α → β → γ) (fps : ℕ) (b : β) :
    ∀ (n k m : ℕ), m < n →
      (renderLoop s bounds crop fps n k (some b))[m]? =
        some (crop (s.make_frame (((k + m : ℕ) : ℚ) / fps)) b) := by
  intro n
  induction n with
  | zero => intro k m hm; omega
  | succ n ih =>
    intro k m hm
    cases m with
    | zero =>
      simp [renderLoop]
    | succ m =>
      simp only [renderLoop, Option.getD_some, List.getElem?_cons_succ]
      rw [ih (k + 1) m (by omega)]
      have harg : k + 1 + m = k + (m + 1) := by omega
      rw [harg]

/-- The frame loop emits exactly as many frames as it is asked for. -/
theorem renderLoop_length {α β γ : Type} (s : Scene α) (bounds : α → β)
    (crop : α → β → γ) (fps : ℕ) :
    ∀ (n k : ℕ) (cache : Option β),
      (renderLoop s bounds crop fps n k cache).length = n := by
  intro n
  induction n with
  | zero => intro k cache; simp [renderLoop]
  | succ n ih =>
    intro k cache
    simp only [renderLoop, List.length_cons, ih]

/-- C6: `render` produces exactly `floor(fps * duration)` frames; frame `k`
is `scene.frame(k / fps)` cropped to the cached bounds of frame 0, and the
output list is in strict frame-index order by construction.  For duration 2
at fps 10 exactly 20 frames are produced, each cropped to frame 0's
bounds. -/
theorem scene_render_spec {α β γ : Type} (s : Scene α) (bounds : α → β)
    (crop : α → β → γ) (fps : ℕ) (hd : 0 ≤ s.duration) :
    (s.render bounds crop fps).length = (⌊(fps : ℚ) * s.duration⌋).toNat ∧
    (∀ k : ℕ, k < (s.render bounds crop fps).length →
      (s.render bounds crop fps)[k]? =
        some (crop (s.make_frame ((k : ℚ) / fps))
          (bounds (s.make_frame ((0 : ℚ) / fps))))) ∧
    (∀ f : ℚ → α, ((Scene.mk 2 f).render bounds crop 10).length = 20) := by
  have hnn : 0 ≤ (fps : ℚ) * s.duration :=
    mul_nonneg (by positivity) hd
  have hren : s.render bounds crop fps =
      renderLoop s bounds crop fps (⌊(fps : ℚ) * s.duration⌋).toNat 0 none := by
    unfold Scene.render
    rw [pyInt_of_nonneg _ hnn]
  refine ⟨?_, ?_, ?_⟩
  · rw [hren, renderLoop_length]
  · intro k hk
    rw [hren, renderLoop_length] at hk
    rw [hren]
    obtain ⟨n, hn⟩ : ∃ n, (⌊(fps : ℚ) * s.duration⌋).toNat = n + 1 :=
      ⟨(⌊(fps : ℚ) * s.duration⌋).toNat - 1, by omega⟩
    rw [hn]
    cases k with
    | zero =>
      simp [renderLoop]
    | succ m =>
      simp only [renderLoop, Option.getD_none, List.getElem?_cons_succ]
      rw [renderLoop_cached_getElem s bounds crop fps _ n 1 m (by omega)]
      have harg : 1 + m = m + 1 := by omega
      rw [harg]
      norm_num
  · intro f
    unfold Scene.render
    rw [renderLoop_length]
    norm_num [pyInt]
    rfl

/-- C6 witness: the render spec applied to a concrete scene of duration 2 at
10 frames per second: exactly 20 frames. -/
theorem scene_render_spec_witness :
    ((Scene.mk (2 : ℚ) (fun t => t)).render (fun x => x) (fun x _ => x)
      10).length = 20 := by
  have h := scene_render_spec (Scene.mk (2 : ℚ) fun t => t) (fun x => x)
    (fun x _ => x) 10 (by norm_num)
  exact h.2.2 (fun t => t)

/-- The seed of `foldl max` is a lower bound of the result. -/
theorem foldl_max_le_seed : ∀ (l : List ℚ) (a : ℚ), a ≤ l.foldl max a := by
  intro l
  induction l with
  | nil => intro a; exact le_refl a
  | cons b l ih =>
    intro a
    exact le_trans (le_max_left a b) (ih (max a b))

/-- Every element of the list is bounded by its `foldl max`. -/
theorem le_foldl_max : ∀ (l : List ℚ) (a x : ℚ), x ∈ l → x ≤ l.foldl max a := by
  intro l
  induction l with
  | nil => intro a x hx; exact absurd hx (List.not_mem_nil x)
  | cons b l ih =>
    intro a x hx
    rcases List.mem_cons.mp hx with h | h
    · subst h
      exact le_trans (le_max_right a x) (foldl_max_le_seed l (max a x))
    · exact ih (max a b) x h

/-- `foldl max` returns an element of the list or its seed. -/
theorem foldl_max_mem : ∀ (l : List ℚ) (a : ℚ),
    l.foldl max a ∈ l ∨ l.foldl max a = a := by
  intro l
  induction l with
  | nil => intro a; exact Or.inr rfl
  | cons b l ih =>
    intro a
    rcases ih (max a b) with h | h
    · exact Or.inl (List.mem_cons_of_mem b h)
    · rcases max_choice a b with hm | hm
      · exact Or.inr (h.trans hm)
      · refine Or.inl ?_
        show List.foldl max (max a b) l ∈ b :: l
        rw [h, hm]
        exact List.mem_cons_self b l

/-- Unfolding `DTree.allNodes` without the `attach` plumbing. -/
theorem allNodes_eq (a : Option ℚ) (cs : List DTree) :
    (DTree.node a cs).allNodes =
      .node a cs :: (cs.map DTree.allNodes).flatten := by
  rw [DTree.allNodes]
  simp [List.attach_map_coe]

/-- C8: every access through the time freezer first sets the child's time to
the fixed freeze time and then delegates (the result depends only on the
freeze time, never on the child's prior time), and a freezer constructed
without an explicit time freezes at the maximum total duration of the
animated nodes of the child's subtree, or 0 when there are none. -/
theorem frozen_spec {β γ δ : Type} :
    (∀ (f : FrozenData) (c : ChildObj β γ δ),
      (frozenBounds f c).2 = c.boundsAt f.t ∧
      (frozenBounds f c).1.time = f.t ∧
      (frozenChildren f c).2 = c.childrenAt f.t ∧
      (frozenChildren f c).1.time = f.t ∧
      (∀ canvas : δ, (frozenDraw f c canvas).2 = c.drawAt f.t canvas ∧
        (frozenDraw f c canvas).1.time = f.t)) ∧
    (∀ (c : ChildObj β γ δ) (t : ℚ), (frozenInit c (some t)).t = t) ∧
    (∀ c : ChildObj β γ δ, findAllAnimatedDurations c.tree = [] →
      (frozenInit c none).t = 0) ∧
    (∀ c : ChildObj β γ δ, findAllAnimatedDurations c.tree ≠ [] →
      (∀ x ∈ findAllAnimatedDurations c.tree, 0 ≤ x) →
      ((frozenInit c none).t ∈ findAllAnimatedDurations c.tree ∧
        ∀ x ∈ findAllAnimatedDurations c.tree, x ≤ (frozenInit c none).t)) := by
  refine ⟨?_, ?_, ?_, ?_⟩
  · intro f c
    exact ⟨rfl, rfl, rfl, rfl, fun _ => ⟨rfl, rfl⟩⟩
  · intro c t
    rfl
  · intro c hnil
    show getDrawableDuration c.tree = 0
    unfold getDrawableDuration
    rw [hnil]
    rfl
  · intro c hne hnn
    have ht : (frozenInit c none).t =
        (findAllAnimatedDurations c.tree).foldl max 0 := rfl
    constructor
    · rw [ht]
      rcases foldl_max_mem (findAllAnimatedDurations c.tree) 0 with h | h
      · exact h
      · obtain ⟨y, ys, hys⟩ :
            ∃ y ys, findAllAnimatedDurations c.tree = y :: ys := by
          cases hcs : findAllAnimatedDurations c.tree with
          | nil => exact absurd hcs hne
          | cons y ys => exact ⟨y, ys, rfl⟩
        have hy0 : 0 ≤ y := hnn y (by rw [hys]; exact List.mem_cons_self y ys)
        have hyle : y ≤ (findAllAnimatedDurations c.tree).foldl max 0 :=
          le_foldl_max _ 0 y (by rw [hys]; exact List.mem_cons_self y ys)
        have hy : y = 0 := le_antisymm (h ▸ hyle) hy0
        rw [h, hys, ← hy]
        exact List.mem_cons_self y ys
    · intro x hx
      rw [ht]
      exact le_foldl_max _ 0 x hx

/-- The concrete child of the freezer witness: a plain root with two
animated children of total durations 3 and 4. -/
def exampleChild : ChildObj ℚ ℚ ℚ :=
  { time := 0,
    tree := .node none [.node (some 3) [], .node (some 4) []],
    boundsAt := fun t => t,
    childrenAt := fun t => t + 1,
    drawAt := fun t canvas => t + canvas }

/-- C8 witness: the freezer spec applied to `exampleChild`: the default
freeze time is one of the animated durations `[3, 4]` and bounds whose
prior time was 0 are read at the freeze time. -/
theorem frozen_spec_witness :
    ((frozenInit exampleChild none).t ∈
        findAllAnimatedDurations exampleChild.tree ∧
      (∀ x ∈ findAllAnimatedDurations exampleChild.tree,
        x ≤ (frozenInit exampleChild none).t)) ∧
    (frozenBounds (frozenInit exampleChild none) exampleChild).2 =
      (frozenInit exampleChild none).t := by
  have h := frozen_spec (β := ℚ) (γ := ℚ) (δ := ℚ)
  refine ⟨h.2.2.2 exampleChild ?_ ?_, ?_⟩
  · simp [exampleChild, findAllAnimatedDurations, allNodes_eq]
  · simp [exampleChild, findAllAnimatedDurations, allNodes_eq]
  · exact (h.1 (frozenInit exampleChild none) exampleChild).1

end Iceberg
